import Mathlib

/-!
Verification of the reference-checking and table-diffing logic of the
check-asset-references action.

The development shallowly embeds the source files `src/set.ts`, `src/diff.ts`
and `src/main.ts`.  JavaScript `Set` objects are modelled as duplicate-free
lists in insertion order, JavaScript objects with string keys as association
lists, strings as Lean strings (lists of characters where character-level
work is needed), and fallible or crashing code as `Except` / `Option`
results.  Definitions follow the source line by line; theorems settle the
frozen specification claims.
-/

/-! ## Row-Set Algebra (src/set.ts) and the JavaScript Set model -/

/-- One `Set.add` step: append the element unless it is already present. -/
def setAdd {α : Type} [DecidableEq α] (s : List α) (x : α) : List α :=
  if x ∈ s then s else s ++ [x]

/-- `new Set(iterable)`: fold `setAdd` over the elements. -/
def jsSetOf {α : Type} [DecidableEq α] (l : List α) : List α :=
  l.foldl setAdd []

/-- `setSubtract` from src/set.ts: `[...a].filter((item) => !b.has(item))`. -/
def setSubtract {α : Type} [DecidableEq α] (a b : List α) : List α :=
  a.filter (fun x => decide (x ∉ b))

/-- `setUnion` from src/set.ts: copy `a`, then add every element of `b`. -/
def setUnion {α : Type} [DecidableEq α] (a b : List α) : List α :=
  b.foldl setAdd a

/-- `setIntersection` from src/set.ts: `[...a].filter((item) => b.has(item))`. -/
def setIntersection {α : Type} [DecidableEq α] (a b : List α) : List α :=
  a.filter (fun x => decide (x ∈ b))

/-! ## Rows, tables and object access -/

/-- A CSV row: JavaScript object mapping column names to string values. -/
abbrev Row := List (String × String)

/-- A loaded table: ordered sequence of rows. -/
abbrev Table := List Row

/-- A keyed table (`TaskTable` in src/diff.ts): object keyed by identity value. -/
abbrev TaskTable := List (String × Row)

/-- JavaScript property read `obj[key]` on an association list: first match. -/
def rLookup {α : Type} (l : List (String × α)) (key : String) : Option α :=
  match l with
  | [] => none
  | (k, v) :: rest => if k = key then some v else rLookup rest key

/-- `new Set(Object.keys(d))`. -/
def keysOf {α : Type} (d : List (String × α)) : List String :=
  jsSetOf (d.map Prod.fst)

/-- `aDict[key]` at a key known to be present; defaults to the empty row. -/
def jsIndex (t : TaskTable) (k : String) : Row :=
  (rLookup t k).getD []

/-! ## Line-ending normalization (src/diff.ts line 102) -/

/-- `value.replace(/\r\n/g, '\n')` on the character list: left-to-right,
non-overlapping replacement of CRLF by LF. -/
def normCRLFChars : List Char → List Char
  | '\r' :: '\n' :: rest => '\n' :: normCRLFChars rest
  | c :: rest => c :: normCRLFChars rest
  | [] => []

/-- String form of the CRLF normalization. -/
def normalizeCRLF (s : String) : String :=
  String.mk (normCRLFChars s.data)

/-! ## getModifiedColumns (src/diff.ts lines 95-105) -/

/-- `getModifiedColumns`: columns of the union of both key sets whose value is
present in both rows and differs even after newline normalization. -/
def getModifiedColumns (a b : Row) : List String :=
  (setUnion (keysOf a) (keysOf b)).filter (fun column =>
    match rLookup a column, rLookup b column with
    | some va, some vb => va != vb && (normalizeCRLF va != normalizeCRLF vb)
    | _, _ => false)

/-- `hasModifiedColumns` (src/diff.ts line 181). -/
def hasModifiedColumns (a b : Row) : Bool :=
  decide (0 < (getModifiedColumns a b).length)

/-! ## Markdown escaping (src/diff.ts lines 19-42) -/

/-- The backtick character. -/
def backquote : Char := Char.ofNat 96

/-- `str.replace(/c/g, r)` for a single-character pattern: replace every
occurrence of `c` by the string `r`. -/
def replaceChar (c : Char) (r : List Char) : List Char → List Char
  | [] => []
  | x :: xs => (if x = c then r else [x]) ++ replaceChar c r xs

/-- The ordered replacement table `markdownReplacements` from src/diff.ts. -/
def markdownReplacements : List (Char × List Char) :=
  [ ('/', ['\\', '/'])
  , (backquote, ['\\', backquote])
  , ('*', ['\\', '*'])
  , ('_', ['\\', '_'])
  , ('{', ['\\', '{'])
  , ('}', ['\\', '}'])
  , ('[', ['\\', '['])
  , (']', ['\\', ']'])
  , ('<', ['&', 'l', 't', ';'])
  , ('>', ['&', 'g', 't', ';'])
  , ('(', ['\\', '('])
  , (')', ['\\', ')'])
  , ('#', ['\\', '#'])
  , ('+', ['\\', '+'])
  , ('-', ['\\', '-'])
  , ('.', ['\\', '.'])
  , ('!', ['\\', '!'])
  , ('|', ['\\', '|']) ]

/-- `markdownEscape`: reduce over the replacement table. -/
def markdownEscape (text : List Char) : List Char :=
  markdownReplacements.foldl (fun s p => replaceChar p.1 p.2 s) text

/-- String form of `markdownEscape`. -/
def markdownEscapeS (s : String) : String :=
  String.mk (markdownEscape s.data)

/-- The characters the transform protects with a leading backslash. -/
def protectedChars : List Char :=
  ['/', backquote, '*', '_', '{', '}', '[', ']', '(', ')', '#', '+', '-', '.', '!', '|']

/-- Net effect of the whole replacement sequence on one input character. -/
def escapeChar (c : Char) : List Char :=
  if c = '<' then ['&', 'l', 't', ';']
  else if c = '>' then ['&', 'g', 't', ';']
  else if c ∈ protectedChars then ['\\', c]
  else [c]

/-! ## JSON values and the Logic-Flag Classifier (src/diff.ts lines 210-267) -/

/-- Parsed JSON values; object fields keep their textual order, so structural
equality of this representation coincides with equality of the serialized
forms the source compares with `JSON.stringify`. -/
inductive Json where
  | jnull : Json
  | jbool : Bool → Json
  | jnum : Int → Json
  | jstr : String → Json
  | jarr : List Json → Json
  | jobj : List (String × Json) → Json

/-- JavaScript truthiness test on a parsed JSON value (`!jsonLogicObj`). -/
def jsFalsy : Json → Bool
  | .jnull => true
  | .jbool b => !b
  | .jnum n => n == 0
  | .jstr s => s == ""
  | _ => false

/-- `isDevCheck`: the value is one of the two canonical serializations of the
dev-environment equality check. -/
def isDevCheck : Json → Bool
  | .jobj [("==", .jarr [.jstr "dev", .jobj [("var", .jstr "server.env")]])] => true
  | .jobj [("==", .jarr [.jobj [("var", .jstr "server.env")], .jstr "dev"])] => true
  | _ => false

/-- Outcome of `JSON.parse` on the rule text: a value, or a thrown error. -/
inductive JsonParseOutcome where
  | ok : Json → JsonParseOutcome
  | err : JsonParseOutcome

/-- The classifier body after a successful column read and non-blank check
(src/diff.ts lines 224-247).  A parse error is caught and yields `none`; the
faulty `reduce` accumulator test `status == status` is kept verbatim.  The
`in` test on a non-object throws, is caught, and yields `none`, which the
wildcard arm reproduces. -/
def logicFlagsOfParsed : JsonParseOutcome → Option String
  | .err => none
  | .ok j =>
    if jsFalsy j then some "disabled"
    else if isDevCheck j then some "dev only"
    else
      match j with
      | .jobj fields =>
        match rLookup fields "and" with
        | some (.jarr args) =>
          if args.foldl (fun status obj => (status == status) || isDevCheck obj) false then
            some "dev only"
          else none
        | some _ => none
        | none => none
      | _ => none

/-- Blank test standing for `text.trim() === ''`. -/
def isBlank (s : String) : Bool :=
  s.data.all (fun c => decide (c = ' ' ∨ c = '\t' ∨ c = '\n' ∨ c = '\r'))

/-- `getLogicFlags` over a row, with `JSON.parse` supplied as a collaborator
mapping the column text to its parse outcome. -/
def getLogicFlags (row : Row) (parse : String → JsonParseOutcome) : Option String :=
  match rLookup row "JsonLogic" with
  | none => none
  | some text => if isBlank text then none else logicFlagsOfParsed (parse text)

/-! ## File diff records and the Table-Diff Engine (src/diff.ts lines 185-300) -/

/-- One parsed unified-diff entry: the optional pre- and post-image paths. -/
structure FileChangeRecord where
  fromPath : Option String
  toPath : Option String
deriving DecidableEq

/-- JavaScript truthiness of an optional string (`undefined` and the empty
string are falsy). -/
def strTruthy : Option String → Bool
  | none => false
  | some s => s != ""

/-- `hasModifiedFile` (src/diff.ts lines 185-189): strict-equality membership
of the filename on either side of some entry. -/
def hasModifiedFile (filename : String) (parsedDiffResult : List FileChangeRecord) : Bool :=
  parsedDiffResult.any (fun entry =>
    entry.fromPath == some filename || entry.toPath == some filename)

/-- One callback step of `hasModifiedFileInSet` for a present media set. -/
def mediaHit (files : List String) : Option String → Bool
  | none => false
  | some s => s != "" && files.contains s

/-- `hasModifiedFileInSet` (src/diff.ts lines 191-198), with the media set
passed as the possibly-undefined result of a map lookup.  When the set is
`undefined`, the callback dereferences `undefined.has` as soon as an entry
has a truthy path, which throws: modelled as `none`. -/
def hasModifiedFileInSetM (mediaFiles : Option (List String))
    (parsedDiffResult : List FileChangeRecord) : Option Bool :=
  match mediaFiles with
  | some files =>
    some (parsedDiffResult.any (fun entry =>
      mediaHit files entry.fromPath || mediaHit files entry.toPath))
  | none =>
    if parsedDiffResult.any (fun entry => strTruthy entry.fromPath || strTruthy entry.toPath)
    then none
    else some false

/-- `getTaskTable` (src/diff.ts lines 200-208): object insertion, where an
existing key is overwritten in place. -/
def insertOrReplace (t : TaskTable) (k : String) (r : Row) : TaskTable :=
  match t with
  | [] => [(k, r)]
  | (k', r') :: rest => if k' = k then (k', r) :: rest else (k', r') :: insertOrReplace rest k r

/-- `getTaskTable`: keep rows with a present, non-empty `UUID`; later rows
overwrite earlier rows with the same key. -/
def getTaskTable (table : Table) : TaskTable :=
  table.foldl (fun tt row =>
    match rLookup row "UUID" with
    | some u => if u = "" then tt else insertOrReplace tt u row
    | none => tt) []

/-- The last row of the table whose `UUID` column equals the given key:
the row that object insertion leaves in the keyed table for that key. -/
def lastUUIDRow (table : Table) (k : String) : Option Row :=
  (table.filter (fun row => rLookup row "UUID" == some k)).getLast?

/-- The structural diff produced by `getActivityChanges`. -/
structure TableDiff where
  added : List (String × Row)
  removed : List (String × Row)
  modified : List (String × (Row × Row))
deriving DecidableEq

/-- The filter predicate applied to each common key (src/diff.ts lines
283-295).  `none` models the uncaught `TypeError` thrown when the media map
lacks the row's task file and the diff has an entry with a truthy path. -/
def modifiedKeyPred (aRow bRow : Row) (usedMediaFileReferences : List (String × List String))
    (parsedDiffResult : Option (List FileChangeRecord)) : Option Bool :=
  if hasModifiedColumns aRow bRow then some true
  else
    match parsedDiffResult with
    | none => some false
    | some entries =>
      match rLookup bRow "Action Link" with
      | none => some false
      | some taskFile =>
        if taskFile = "" then some false
        else if hasModifiedFile taskFile entries then some true
        else hasModifiedFileInSetM (rLookup usedMediaFileReferences taskFile) entries

/-- `[...commonKeys].filter(...)` with a possibly-throwing predicate. -/
def commonFiltered (ks : List String) (aDict bDict : TaskTable)
    (usedMediaFileReferences : List (String × List String))
    (parsedDiffResult : Option (List FileChangeRecord)) : Option (List String) :=
  match ks with
  | [] => some []
  | k :: rest =>
    match modifiedKeyPred (jsIndex aDict k) (jsIndex bDict k)
        usedMediaFileReferences parsedDiffResult with
    | none => none
    | some b =>
      (commonFiltered rest aDict bDict usedMediaFileReferences parsedDiffResult).map
        (fun tail => if b then k :: tail else tail)

/-- `getActivityChanges` (src/diff.ts lines 269-300).  `none` models the run
aborting with the `TypeError` described at `hasModifiedFileInSetM`. -/
def getActivityChanges (aDict bDict : TaskTable)
    (usedMediaFileReferences : List (String × List String))
    (parsedDiffResult : Option (List FileChangeRecord)) : Option TableDiff :=
  match commonFiltered (setIntersection (keysOf aDict) (keysOf bDict)) aDict bDict
      usedMediaFileReferences parsedDiffResult with
  | none => none
  | some modKeys =>
    some { added := (setSubtract (keysOf bDict) (keysOf aDict)).filterMap
             (fun k => (rLookup bDict k).map (fun r => (k, r)))
         , removed := (setSubtract (keysOf aDict) (keysOf bDict)).filterMap
             (fun k => (rLookup aDict k).map (fun r => (k, r)))
         , modified := modKeys.map (fun k => (k, (jsIndex aDict k, jsIndex bDict k))) }

/-- The per-column value rendered in the Modified section (src/diff.ts lines
155-156): the escaped cell when the column is present, else the placeholder. -/
def columnValue (row : Row) (column : String) : String :=
  match rLookup row column with
  | some v => markdownEscapeS v
  | none => "(null)"

/-! ## The run pipeline (src/main.ts) -/

/-- `String.prototype.split` with a one-character separator. -/
def splitChar (c : Char) : List Char → List (List Char)
  | [] => [[]]
  | x :: xs =>
    let rest := splitChar c xs
    if x = c then [] :: rest
    else
      match rest with
      | [] => [[x]]
      | r :: rs => (x :: r) :: rs

/-- `getReferencedFiles` (src/main.ts lines 24-33): collect the decoded value
of the given column over all rows where it is present and truthy. -/
def getReferencedFiles (records : Table) (key : String) (decode : String → String) :
    List String :=
  records.foldl (fun files record =>
    match rLookup record key with
    | some v => if v = "" then files else setAdd files (decode v)
    | none => files) []

/-- Environment of one invocation of `run` (src/main.ts lines 68-151): the
configuration inputs and the outcome of every I/O collaborator. -/
structure RunEnv where
  githubWorkspace : Option String
  magicTasks : String
  gitBaseSha : String
  gitHeadSha : String
  baseActivitiesResult : Except String Table
  diffResult : Except String (List FileChangeRecord)
  headActivitiesResult : Except String Table
  headArticlesResult : Except String Table
  taskFiles : List String
  articleFiles : List String
  mediaFiles : List String
  taskFileRefs : String → List String
  decode : String → String

/-- Observable outcome of one run. -/
structure RunOutcome where
  failed : Bool
  referenceCheckRan : Bool
  missingTaskFiles : List String
  unusedTaskFiles : List String
  missingMediaFiles : List String
  unusedMediaFiles : List String
  missingArticleFiles : List String
  unusedArticleFiles : List String
deriving DecidableEq

/-- Outcome produced by the top-level `catch` (src/main.ts lines 148-150):
`core.setFailed` marks the run failed and nothing after the throw executes. -/
def abortOutcome : RunOutcome :=
  { failed := true
  , referenceCheckRan := false
  , missingTaskFiles := []
  , unusedTaskFiles := []
  , missingMediaFiles := []
  , unusedMediaFiles := []
  , missingArticleFiles := []
  , unusedArticleFiles := [] }

/-- The media-reference map built at src/main.ts line 95: one entry per file
in the intersection of used and discovered task files. -/
def usedMediaRefsOf (env : RunEnv) (head : Table) : List (String × List String) :=
  (setIntersection (getReferencedFiles head "Action Link" env.decode) env.taskFiles).map
    (fun f => (f, env.taskFileRefs f))

/-- The change-report step (src/main.ts lines 100-114): when a base snapshot
was loaded, `generateActivityDiff` recomputes the file diff and runs
`getActivityChanges`; a diff failure or the engine's `TypeError` propagates. -/
def activityDiffStep (env : RunEnv) (base : Option Table) (head : Table) :
    Except String Unit :=
  match base with
  | none => Except.ok ()
  | some b =>
    match (if env.gitBaseSha ≠ "" ∧ env.gitHeadSha ≠ ""
           then env.diffResult.map some
           else Except.ok none) with
    | Except.error e => Except.error e
    | Except.ok parsedDiffResult =>
      match getActivityChanges (getTaskTable b) (getTaskTable head)
          (usedMediaRefsOf env head) parsedDiffResult with
      | none => Except.error "TypeError: reading has of undefined"
      | some _ => Except.ok ()

/-- The reference-check tail of `run` (src/main.ts lines 115-147): missing and
unused sets, and the failure decision. -/
def checkOutcome (env : RunEnv) (head headArticles : Table) : RunOutcome :=
  let taskFiles := env.taskFiles
  let usedTaskFiles := getReferencedFiles head "Action Link" env.decode
  let usedMediaFileReferences := usedMediaRefsOf env head
  let usedArticleFiles := getReferencedFiles headArticles "Article Link" env.decode
  let usedTaskFiles2 := (splitChar ',' env.magicTasks.data).foldl
    (fun s e => if e = [] then s else setAdd s (String.mk e)) usedTaskFiles
  let missingTaskFiles := setSubtract usedTaskFiles2 taskFiles
  let unusedTaskFiles := setSubtract taskFiles usedTaskFiles2
  let usedMediaFiles := usedMediaFileReferences.foldl
    (fun accum current => setUnion accum current.2) []
  let missingMediaFiles := setSubtract usedMediaFiles env.mediaFiles
  let unusedMediaFiles := setSubtract env.mediaFiles usedMediaFiles
  let missingArticleFiles := setSubtract usedArticleFiles env.articleFiles
  let unusedArticleFiles := setSubtract env.articleFiles usedArticleFiles
  { failed := !missingTaskFiles.isEmpty || !missingMediaFiles.isEmpty
  , referenceCheckRan := true
  , missingTaskFiles := missingTaskFiles
  , unusedTaskFiles := unusedTaskFiles
  , missingMediaFiles := missingMediaFiles
  , unusedMediaFiles := unusedMediaFiles
  , missingArticleFiles := missingArticleFiles
  , unusedArticleFiles := unusedArticleFiles }

/-- The `try` body of `run`, in source order: workspace check, base snapshot
load, file-diff invocation, head loads, change report, reference check. -/
def runBody (env : RunEnv) : Except String RunOutcome :=
  match env.githubWorkspace with
  | none => Except.error "GITHUB_WORKSPACE is not set"
  | some ws =>
    if ws = "" then Except.error "GITHUB_WORKSPACE is not set"
    else
      match (if env.gitBaseSha ≠ ""
             then env.baseActivitiesResult.map some
             else Except.ok none) with
      | Except.error e => Except.error e
      | Except.ok base =>
        match (if env.gitBaseSha ≠ "" ∧ env.gitHeadSha ≠ ""
               then env.diffResult.map (fun _ => ())
               else Except.ok ()) with
        | Except.error e => Except.error e
        | Except.ok _ =>
          match env.headActivitiesResult with
          | Except.error e => Except.error e
          | Except.ok head =>
            match env.headArticlesResult with
            | Except.error e => Except.error e
            | Except.ok headArticles =>
              match activityDiffStep env base head with
              | Except.error e => Except.error e
              | Except.ok _ => Except.ok (checkOutcome env head headArticles)

/-- `run`: the `try` body with the top-level `catch`. -/
def runModel (env : RunEnv) : RunOutcome :=
  match runBody env with
  | Except.ok outcome => outcome
  | Except.error _ => abortOutcome

/-! ## Concrete inputs used by counterexamples and witnesses -/

/-- A benign environment: no revisions given, everything empty and healthy. -/
def envOK : RunEnv :=
  { githubWorkspace := some "ws"
  , magicTasks := ""
  , gitBaseSha := ""
  , gitHeadSha := ""
  , baseActivitiesResult := Except.ok []
  , diffResult := Except.ok []
  , headActivitiesResult := Except.ok []
  , headArticlesResult := Except.ok []
  , taskFiles := []
  , articleFiles := []
  , mediaFiles := []
  , taskFileRefs := fun _ => []
  , decode := fun s => s }

/-- An environment whose VCS diff invocation fails while both revisions are
supplied and every load succeeds. -/
def envC5 : RunEnv :=
  { githubWorkspace := some "ws"
  , magicTasks := ""
  , gitBaseSha := "base"
  , gitHeadSha := "head"
  , baseActivitiesResult := Except.ok []
  , diffResult := Except.error "fatal: bad revision"
  , headActivitiesResult := Except.ok []
  , headArticlesResult := Except.ok []
  , taskFiles := []
  , articleFiles := []
  , mediaFiles := []
  , taskFileRefs := fun _ => []
  , decode := fun s => s }

/-- A row referencing a task file that the media map will not contain. -/
def c4row : Row := [("UUID", "1"), ("Action Link", "tasks/a.json")]

/-! ## Membership lemmas for the Set model -/

theorem mem_setAdd {α : Type} [DecidableEq α] {s : List α} {x y : α} :
    y ∈ setAdd s x ↔ y ∈ s ∨ y = x := by
  unfold setAdd
  split
  · rename_i hx
    constructor
    · exact Or.inl
    · rintro (h | rfl)
      · exact h
      · exact hx
  · simp

theorem mem_setUnion {α : Type} [DecidableEq α] {a b : List α} {x : α} :
    x ∈ setUnion a b ↔ x ∈ a ∨ x ∈ b := by
  induction b generalizing a with
  | nil => simp [setUnion]
  | cons y ys ih =>
    show x ∈ setUnion (setAdd a y) ys ↔ _
    rw [ih, mem_setAdd]
    simp only [List.mem_cons]
    tauto

theorem mem_jsSetOf {α : Type} [DecidableEq α] {l : List α} {x : α} :
    x ∈ jsSetOf l ↔ x ∈ l := by
  show x ∈ setUnion [] l ↔ _
  rw [mem_setUnion]
  simp

theorem mem_setSubtract {α : Type} [DecidableEq α] {a b : List α} {x : α} :
    x ∈ setSubtract a b ↔ x ∈ a ∧ x ∉ b := by
  simp [setSubtract]

theorem mem_setIntersection {α : Type} [DecidableEq α] {a b : List α} {x : α} :
    x ∈ setIntersection a b ↔ x ∈ a ∧ x ∈ b := by
  simp [setIntersection]

/-- C9: the Row-Set Algebra identities.  Subtracting a set from itself gives
the empty set, the union with the empty set returns the first set unchanged,
intersection is commutative as an unordered set, and the subtraction and the
intersection of A by B partition A; the operations are pure functions of
their arguments. -/
theorem set_algebra_identities {α : Type} [DecidableEq α] (A B : List α) :
    setSubtract A A = [] ∧
    setUnion A [] = A ∧
    (∀ x, x ∈ setIntersection A B ↔ x ∈ setIntersection B A) ∧
    (∀ x, x ∈ setUnion (setSubtract A B) (setIntersection A B) ↔ x ∈ A) := by
  refine ⟨?_, rfl, ?_, ?_⟩
  · simp [setSubtract, List.filter_eq_nil_iff]
  · intro x
    rw [mem_setIntersection, mem_setIntersection]
    tauto
  · intro x
    rw [mem_setUnion, mem_setSubtract, mem_setIntersection]
    tauto

/-- C9 witness: the identities evaluated at two concrete sets of identifiers. -/
theorem set_algebra_identities_witness :
    setSubtract ["a", "b"] ["a", "b"] = [] ∧
    setUnion ["a", "b"] [] = ["a", "b"] ∧
    (∀ x, x ∈ setIntersection ["a", "b"] ["b"] ↔ x ∈ setIntersection ["b"] ["a", "b"]) ∧
    (∀ x, x ∈ setUnion (setSubtract ["a", "b"] ["b"]) (setIntersection ["a", "b"] ["b"]) ↔
      x ∈ ["a", "b"]) :=
  set_algebra_identities ["a", "b"] ["b"]

/-! ## Markdown escaping: structure of the replacement sequence -/

theorem replaceChar_append (c : Char) (r l₁ l₂ : List Char) :
    replaceChar c r (l₁ ++ l₂) = replaceChar c r l₁ ++ replaceChar c r l₂ := by
  induction l₁ with
  | nil => rfl
  | cons x xs ih => simp [replaceChar, ih]

theorem escapeWith_append (ps : List (Char × List Char)) (l₁ l₂ : List Char) :
    ps.foldl (fun s p => replaceChar p.1 p.2 s) (l₁ ++ l₂) =
      ps.foldl (fun s p => replaceChar p.1 p.2 s) l₁ ++
      ps.foldl (fun s p => replaceChar p.1 p.2 s) l₂ := by
  induction ps generalizing l₁ l₂ with
  | nil => rfl
  | cons p rest ih =>
    simp only [List.foldl_cons]
    rw [replaceChar_append, ih]

theorem escape_nontarget (ps : List (Char × List Char)) (x : Char)
    (h : ∀ p ∈ ps, x ≠ p.1) :
    ps.foldl (fun s p => replaceChar p.1 p.2 s) [x] = [x] := by
  induction ps with
  | nil => rfl
  | cons p rest ih =>
    simp only [List.foldl_cons]
    have hx : replaceChar p.1 p.2 [x] = [x] := by
      simp [replaceChar, h p (List.mem_cons_self p rest)]
    rw [hx]
    exact ih (fun q hq => h q (List.mem_cons_of_mem p hq))

theorem markdownEscape_single (x : Char) : markdownEscape [x] = escapeChar x := by
  by_cases h1 : x = '/'
  · subst h1; decide
  by_cases h2 : x = backquote
  · subst h2; decide
  by_cases h3 : x = '*'
  · subst h3; decide
  by_cases h4 : x = '_'
  · subst h4; decide
  by_cases h5 : x = '{'
  · subst h5; decide
  by_cases h6 : x = '}'
  · subst h6; decide
  by_cases h7 : x = '['
  · subst h7; decide
  by_cases h8 : x = ']'
  · subst h8; decide
  by_cases h9 : x = '<'
  · subst h9; decide
  by_cases h10 : x = '>'
  · subst h10; decide
  by_cases h11 : x = '('
  · subst h11; decide
  by_cases h12 : x = ')'
  · subst h12; decide
  by_cases h13 : x = '#'
  · subst h13; decide
  by_cases h14 : x = '+'
  · subst h14; decide
  by_cases h15 : x = '-'
  · subst h15; decide
  by_cases h16 : x = '.'
  · subst h16; decide
  by_cases h17 : x = '!'
  · subst h17; decide
  by_cases h18 : x = '|'
  · subst h18; decide
  have hmem : x ∉ protectedChars := by
    simp only [protectedChars, List.mem_cons, List.not_mem_nil, or_false]
    push_neg
    exact ⟨h1, h2, h3, h4, h5, h6, h7, h8, h11, h12, h13, h14, h15, h16, h17, h18⟩
  have hnt : markdownEscape [x] = [x] := by
    apply escape_nontarget
    intro p hp
    simp only [markdownReplacements, List.mem_cons, List.not_mem_nil, or_false] at hp
    rcases hp with hp | hp | hp | hp | hp | hp | hp | hp | hp | hp | hp | hp | hp | hp | hp | hp | hp | hp <;>
      (subst hp; simp_all)
  rw [hnt]
  simp [escapeChar, h9, h10, hmem]

theorem markdownEscape_cons (x : Char) (xs : List Char) :
    markdownEscape (x :: xs) = escapeChar x ++ markdownEscape xs := by
  have : (x :: xs) = [x] ++ xs := rfl
  rw [this]
  show markdownReplacements.foldl _ ([x] ++ xs) = _
  rw [escapeWith_append]
  rw [show markdownReplacements.foldl (fun s p => replaceChar p.1 p.2 s) [x] =
    markdownEscape [x] from rfl, markdownEscape_single]
  rfl

theorem markdownEscape_flatMap (l : List Char) :
    markdownEscape l = l.flatMap escapeChar := by
  induction l with
  | nil => rfl
  | cons x xs ih => rw [markdownEscape_cons, ih, List.flatMap_cons]

theorem escapeChar_block (x : Char) (i : Nat) (c : Char)
    (h : (escapeChar x)[i]? = some c) :
    c ≠ '<' ∧ c ≠ '>' ∧ (c ∈ protectedChars → i = 1 ∧ (escapeChar x)[0]? = some '\\') := by
  unfold escapeChar at h ⊢
  split_ifs at h ⊢ with hlt hgt hp
  · rcases i with _ | _ | _ | _ | i
    · simp at h; subst h; decide
    · simp at h; subst h; decide
    · simp at h; subst h; decide
    · simp at h; subst h; decide
    · simp at h
  · rcases i with _ | _ | _ | _ | i
    · simp at h; subst h; decide
    · simp at h; subst h; decide
    · simp at h; subst h; decide
    · simp at h; subst h; decide
    · simp at h
  · rcases i with _ | _ | i
    · simp at h
      subst h
      exact ⟨by decide, by decide, fun hmem => absurd hmem (by decide)⟩
    · simp at h
      subst h
      exact ⟨hlt, hgt, fun _ => ⟨rfl, by simp⟩⟩
    · simp at h
  · rcases i with _ | i
    · simp at h
      subst h
      exact ⟨hlt, hgt, fun hmem => absurd hmem hp⟩
    · simp at h

theorem markdownEscape_noBare (l : List Char) :
    ∀ i c, (markdownEscape l)[i]? = some c →
      c ≠ '<' ∧ c ≠ '>' ∧
      (c ∈ protectedChars → ∃ j, i = j + 1 ∧ (markdownEscape l)[j]? = some '\\') := by
  induction l with
  | nil =>
    intro i c h
    rw [show markdownEscape ([] : List Char) = [] from rfl] at h
    simp at h
  | cons x xs ih =>
    intro i c h
    rw [markdownEscape_cons] at h ⊢
    by_cases hi : i < (escapeChar x).length
    · rw [List.getElem?_append_left hi] at h
      obtain ⟨hc1, hc2, hc3⟩ := escapeChar_block x i c h
      refine ⟨hc1, hc2, fun hmem => ?_⟩
      obtain ⟨hi1, h0⟩ := hc3 hmem
      refine ⟨0, by omega, ?_⟩
      rw [List.getElem?_append_left (by omega : 0 < (escapeChar x).length)]
      exact h0
    · push_neg at hi
      rw [List.getElem?_append_right hi] at h
      obtain ⟨hc1, hc2, hc3⟩ := ih (i - (escapeChar x).length) c h
      refine ⟨hc1, hc2, fun hmem => ?_⟩
      obtain ⟨j, hj1, hj2⟩ := hc3 hmem
      refine ⟨(escapeChar x).length + j, by omega, ?_⟩
      rw [List.getElem?_append_right (by omega : (escapeChar x).length ≤ (escapeChar x).length + j)]
      rw [show (escapeChar x).length + j - (escapeChar x).length = j from by omega]
      exact hj2

/-- C8: the markdown-escaping transform acts independently on each input
character (so earlier substitutions are never re-escaped by later rules), the
output contains no angle bracket at all, and every protected character in the
output is immediately preceded by a backslash. -/
theorem markdownEscape_protected_always_escaped (l : List Char) :
    markdownEscape l = l.flatMap escapeChar ∧
    ∀ i c, (markdownEscape l)[i]? = some c →
      c ≠ '<' ∧ c ≠ '>' ∧
      (c ∈ protectedChars → ∃ j, i = j + 1 ∧ (markdownEscape l)[j]? = some '\\') :=
  ⟨markdownEscape_flatMap l, markdownEscape_noBare l⟩

/-- C8 witness: the escape of the concrete text made of the letter a followed
by a star puts the star at position two, right after a backslash. -/
theorem markdownEscape_protected_always_escaped_witness :
    '*' ≠ '<' ∧ '*' ≠ '>' ∧
    ('*' ∈ protectedChars → ∃ j, 2 = j + 1 ∧ (markdownEscape ['a', '*'])[j]? = some '\\') :=
  (markdownEscape_protected_always_escaped ['a', '*']).2 2 '*' (by decide)

/-! ## Keyed-table lemmas -/

theorem rLookup_isSome_iff {α : Type} {d : List (String × α)} {k : String} :
    (rLookup d k).isSome = true ↔ k ∈ d.map Prod.fst := by
  induction d with
  | nil => simp [rLookup]
  | cons p rest ih =>
    obtain ⟨k', v⟩ := p
    simp only [rLookup, List.map_cons, List.mem_cons]
    by_cases hk : k' = k
    · subst hk; simp
    · rw [if_neg hk, ih]
      have : ¬(k = k') := fun h => hk h.symm
      simp [this]

theorem mem_keysOf {α : Type} {d : List (String × α)} {k : String} :
    k ∈ keysOf d ↔ (rLookup d k).isSome = true := by
  rw [keysOf, mem_jsSetOf, rLookup_isSome_iff]

theorem mem_filterMap_keys {d : TaskTable} {l : List String} {k : String} :
    k ∈ (l.filterMap (fun k' => (rLookup d k').map (fun r => (k', r)))).map Prod.fst ↔
      k ∈ l ∧ (rLookup d k).isSome = true := by
  constructor
  · intro h
    obtain ⟨⟨k₁, r⟩, hp, hfst⟩ := List.mem_map.mp h
    obtain ⟨k₂, hk₂, hmap⟩ := List.mem_filterMap.mp hp
    obtain ⟨r', hr', heq⟩ := Option.map_eq_some'.mp hmap
    cases heq
    cases hfst
    exact ⟨hk₂, by simp [hr']⟩
  · rintro ⟨hkl, hsome⟩
    obtain ⟨r, hr⟩ := Option.isSome_iff_exists.mp hsome
    exact List.mem_map.mpr ⟨(k, r), List.mem_filterMap.mpr ⟨k, hkl, by simp [hr]⟩, rfl⟩

theorem commonFiltered_subset {ks : List String} {a b : TaskTable}
    {refs : List (String × List String)} {dr : Option (List FileChangeRecord)}
    {out : List String} (h : commonFiltered ks a b refs dr = some out) :
    ∀ k ∈ out, k ∈ ks := by
  induction ks generalizing out with
  | nil =>
    simp only [commonFiltered, Option.some.injEq] at h
    subst h
    simp
  | cons k rest ih =>
    simp only [commonFiltered] at h
    cases hp : modifiedKeyPred (jsIndex a k) (jsIndex b k) refs dr with
    | none => rw [hp] at h; cases h
    | some bo =>
      rw [hp] at h
      cases hr : commonFiltered rest a b refs dr with
      | none => rw [hr] at h; cases h
      | some tail =>
        rw [hr] at h
        simp only [Option.map_some', Option.some.injEq] at h
        subst h
        intro k' hk'
        cases bo with
        | true =>
          rw [if_pos rfl] at hk'
          rcases List.mem_cons.mp hk' with h1 | hk2
          · exact List.mem_cons.mpr (Or.inl h1)
          · exact List.mem_cons_of_mem k (ih hr k' hk2)
        | false =>
          rw [if_neg (by simp)] at hk'
          exact List.mem_cons_of_mem k (ih hr k' hk')

theorem getActivityChanges_some {aDict bDict : TaskTable}
    {refs : List (String × List String)} {dr : Option (List FileChangeRecord)}
    {td : TableDiff} (h : getActivityChanges aDict bDict refs dr = some td) :
    (∀ k, k ∈ td.added.map Prod.fst ↔ k ∈ keysOf bDict ∧ k ∉ keysOf aDict) ∧
    (∀ k, k ∈ td.removed.map Prod.fst ↔ k ∈ keysOf aDict ∧ k ∉ keysOf bDict) ∧
    (∀ k, k ∈ td.modified.map Prod.fst → k ∈ keysOf aDict ∧ k ∈ keysOf bDict) := by
  unfold getActivityChanges at h
  cases hcf : commonFiltered (setIntersection (keysOf aDict) (keysOf bDict))
      aDict bDict refs dr with
  | none => rw [hcf] at h; cases h
  | some modKeys =>
    rw [hcf] at h
    simp only [Option.some.injEq] at h
    subst h
    refine ⟨?_, ?_, ?_⟩
    · intro k
      rw [show (({ added := _, removed := _, modified := _ } : TableDiff)).added = _ from rfl]
      rw [mem_filterMap_keys, mem_setSubtract]
      constructor
      · rintro ⟨h1, _⟩
        exact h1
      · intro h1
        exact ⟨h1, mem_keysOf.mp h1.1⟩
    · intro k
      rw [show (({ added := _, removed := _, modified := _ } : TableDiff)).removed = _ from rfl]
      rw [mem_filterMap_keys, mem_setSubtract]
      constructor
      · rintro ⟨h1, _⟩
        exact h1
      · intro h1
        exact ⟨h1, mem_keysOf.mp h1.1⟩
    · intro k hk
      rw [show (({ added := _, removed := _, modified := _ } : TableDiff)).modified = _ from rfl]
        at hk
      simp only [List.map_map] at hk
      have hk2 : k ∈ modKeys := by
        obtain ⟨k', hk', he⟩ := List.mem_map.mp hk
        cases he
        exact hk'
      have := commonFiltered_subset hcf k hk2
      exact mem_setIntersection.mp this

/-- C1 (amended): for a successful diff, the added key-set is exactly
keys(B) minus keys(A), the removed key-set exactly keys(A) minus keys(B),
every modified key lies in keys(A) intersect keys(B), and the three key-sets
are pairwise disjoint; common keys with no detected change appear in no
partition, so the key-union can fall short of keys(A) union keys(B). -/
theorem getActivityChanges_partition (aDict bDict : TaskTable)
    (refs : List (String × List String)) (dr : Option (List FileChangeRecord))
    (td : TableDiff) (h : getActivityChanges aDict bDict refs dr = some td) :
    (∀ k, k ∈ td.added.map Prod.fst ↔ k ∈ keysOf bDict ∧ k ∉ keysOf aDict) ∧
    (∀ k, k ∈ td.removed.map Prod.fst ↔ k ∈ keysOf aDict ∧ k ∉ keysOf bDict) ∧
    (∀ k, k ∈ td.modified.map Prod.fst → k ∈ keysOf aDict ∧ k ∈ keysOf bDict) ∧
    (∀ k, ¬(k ∈ td.added.map Prod.fst ∧ k ∈ td.removed.map Prod.fst) ∧
          ¬(k ∈ td.added.map Prod.fst ∧ k ∈ td.modified.map Prod.fst) ∧
          ¬(k ∈ td.removed.map Prod.fst ∧ k ∈ td.modified.map Prod.fst)) := by
  obtain ⟨ha, hr, hm⟩ := getActivityChanges_some h
  refine ⟨ha, hr, hm, fun k => ⟨?_, ?_, ?_⟩⟩
  · rintro ⟨h1, h2⟩
    exact ((ha k).mp h1).2 ((hr k).mp h2).1
  · rintro ⟨h1, h2⟩
    exact ((ha k).mp h1).2 (hm k h2).1
  · rintro ⟨h1, h2⟩
    exact ((hr k).mp h1).2 (hm k h2).2

/-- C1 counterexample: two identical single-row snapshots keyed by the same
identity.  The diff succeeds with all three partitions empty, yet the key is
present in both snapshots, so the key-union of the partitions does not equal
the union of the snapshot key-sets. -/
theorem getActivityChanges_union_counterexample :
    getActivityChanges [("1", [("UUID", "1")])] [("1", [("UUID", "1")])] [] none
      = some { added := [], removed := [], modified := [] } ∧
    "1" ∈ keysOf [("1", ([("UUID", "1")] : Row))] :=
  ⟨rfl, by decide⟩

/-- C1 witness: the amended partition property evaluated on two disjoint
single-row snapshots. -/
theorem getActivityChanges_partition_witness :
    (∀ k, k ∈ (({ added := [("2", [("UUID", "2")])]
                 , removed := [("1", [("UUID", "1")])]
                 , modified := [] } : TableDiff)).added.map Prod.fst ↔
        k ∈ keysOf [("2", ([("UUID", "2")] : Row))] ∧
        k ∉ keysOf [("1", ([("UUID", "1")] : Row))]) ∧
    (∀ k, k ∈ (({ added := [("2", [("UUID", "2")])]
                 , removed := [("1", [("UUID", "1")])]
                 , modified := [] } : TableDiff)).removed.map Prod.fst ↔
        k ∈ keysOf [("1", ([("UUID", "1")] : Row))] ∧
        k ∉ keysOf [("2", ([("UUID", "2")] : Row))]) ∧
    (∀ k, k ∈ (({ added := [("2", [("UUID", "2")])]
                 , removed := [("1", [("UUID", "1")])]
                 , modified := [] } : TableDiff)).modified.map Prod.fst →
        k ∈ keysOf [("1", ([("UUID", "1")] : Row))] ∧
        k ∈ keysOf [("2", ([("UUID", "2")] : Row))]) ∧
    (∀ k, ¬(k ∈ (({ added := [("2", [("UUID", "2")])]
                   , removed := [("1", [("UUID", "1")])]
                   , modified := [] } : TableDiff)).added.map Prod.fst ∧
            k ∈ (({ added := [("2", [("UUID", "2")])]
                   , removed := [("1", [("UUID", "1")])]
                   , modified := [] } : TableDiff)).removed.map Prod.fst) ∧
          ¬(k ∈ (({ added := [("2", [("UUID", "2")])]
                   , removed := [("1", [("UUID", "1")])]
                   , modified := [] } : TableDiff)).added.map Prod.fst ∧
            k ∈ (({ added := [("2", [("UUID", "2")])]
                   , removed := [("1", [("UUID", "1")])]
                   , modified := [] } : TableDiff)).modified.map Prod.fst) ∧
          ¬(k ∈ (({ added := [("2", [("UUID", "2")])]
                   , removed := [("1", [("UUID", "1")])]
                   , modified := [] } : TableDiff)).removed.map Prod.fst ∧
            k ∈ (({ added := [("2", [("UUID", "2")])]
                   , removed := [("1", [("UUID", "1")])]
                   , modified := [] } : TableDiff)).modified.map Prod.fst)) :=
  getActivityChanges_partition [("1", [("UUID", "1")])] [("2", [("UUID", "2")])] [] none
    { added := [("2", [("UUID", "2")])]
    , removed := [("1", [("UUID", "1")])]
    , modified := [] } rfl

/-! ## Modification detection without a file diff -/

theorem modifiedKeyPred_no_diff (a b : Row) (refs : List (String × List String)) :
    modifiedKeyPred a b refs none = some (hasModifiedColumns a b) := by
  unfold modifiedKeyPred
  cases h : hasModifiedColumns a b <;> simp [h]

theorem commonFiltered_no_diff (ks : List String) (aDict bDict : TaskTable)
    (refs : List (String × List String)) :
    commonFiltered ks aDict bDict refs none =
      some (ks.filter (fun k => hasModifiedColumns (jsIndex aDict k) (jsIndex bDict k))) := by
  induction ks with
  | nil => rfl
  | cons k rest ih =>
    simp only [commonFiltered, modifiedKeyPred_no_diff, ih, Option.map_some',
      List.filter_cons]

theorem hasModifiedColumns_iff (a b : Row) :
    hasModifiedColumns a b = true ↔
      ∃ c va vb, rLookup a c = some va ∧ rLookup b c = some vb ∧
        normalizeCRLF va ≠ normalizeCRLF vb := by
  unfold hasModifiedColumns
  rw [decide_eq_true_iff, List.length_pos_iff_exists_mem]
  unfold getModifiedColumns
  constructor
  · rintro ⟨c, hc⟩
    obtain ⟨hmem, hpred⟩ := List.mem_filter.mp hc
    cases ha : rLookup a c with
    | none =>
      rw [ha] at hpred
      cases hb : rLookup b c <;> rw [hb] at hpred <;> simp at hpred
    | some va =>
      cases hb : rLookup b c with
      | none => rw [ha, hb] at hpred; simp at hpred
      | some vb =>
        rw [ha, hb] at hpred
        rw [Bool.and_eq_true] at hpred
        exact ⟨c, va, vb, ha, hb, bne_iff_ne.mp hpred.2⟩
  · rintro ⟨c, va, vb, ha, hb, hne⟩
    refine ⟨c, List.mem_filter.mpr ⟨?_, ?_⟩⟩
    · exact mem_setUnion.mpr (Or.inl (mem_keysOf.mpr (by simp [ha])))
    · rw [ha, hb]
      have hv : va ≠ vb := fun he => hne (by rw [he])
      rw [Bool.and_eq_true]
      exact ⟨bne_iff_ne.mpr hv, bne_iff_ne.mpr hne⟩

theorem map_fst_keyPair (f : String → Row × Row) (l : List String) :
    (l.map (fun k => (k, f k))).map Prod.fst = l := by
  induction l with
  | nil => rfl
  | cons x xs ih => simp only [List.map_cons, ih]

/-- C3 (amended): without a file diff, the diff always succeeds and a common
key is classified Modified exactly when some column present in BOTH rows has
a differing value after newline normalization; a column present in only one
row is ignored (the source's documented limitation on introduced or removed
columns). -/
theorem modified_iff_shared_column_differs (aDict bDict : TaskTable)
    (refs : List (String × List String)) :
    ∃ td, getActivityChanges aDict bDict refs none = some td ∧
      ∀ k, k ∈ td.modified.map Prod.fst ↔
        (k ∈ setIntersection (keysOf aDict) (keysOf bDict) ∧
         ∃ c va vb, rLookup (jsIndex aDict k) c = some va ∧
           rLookup (jsIndex bDict k) c = some vb ∧
           normalizeCRLF va ≠ normalizeCRLF vb) := by
  unfold getActivityChanges
  rw [commonFiltered_no_diff]
  refine ⟨_, rfl, ?_⟩
  intro k
  rw [show (({ added := _, removed := _, modified := _ } : TableDiff)).modified = _ from rfl]
  rw [map_fst_keyPair (fun k => (jsIndex aDict k, jsIndex bDict k))]
  rw [List.mem_filter]
  exact and_congr Iff.rfl (hasModifiedColumns_iff _ _)

/-- C3 counterexample: the head row carries an extra non-empty column X that
the base row lacks, the rows agree on every shared column, and there is no
file diff.  The claim classifies the row Modified; the code leaves all three
partitions empty because it only compares columns present in both rows. -/
theorem modified_one_sided_column_counterexample :
    getActivityChanges [("1", [("UUID", "1")])] [("1", [("UUID", "1"), ("X", "v")])] [] none
      = some { added := [], removed := [], modified := [] } ∧
    rLookup ([("UUID", "1")] : Row) "X" = none ∧
    rLookup ([("UUID", "1"), ("X", "v")] : Row) "X" = some "v" ∧
    ("v" : String) ≠ "" :=
  ⟨rfl, rfl, rfl, by decide⟩

/-- C3 witness: the amended equivalence evaluated on one common key whose
shared Title column differs. -/
theorem modified_iff_shared_column_differs_witness :
    ∃ td, getActivityChanges [("1", [("UUID", "1"), ("T", "x")])]
        [("1", [("UUID", "1"), ("T", "y")])] [] none = some td ∧
      ∀ k, k ∈ td.modified.map Prod.fst ↔
        (k ∈ setIntersection (keysOf [("1", ([("UUID", "1"), ("T", "x")] : Row))])
            (keysOf [("1", ([("UUID", "1"), ("T", "y")] : Row))]) ∧
         ∃ c va vb,
           rLookup (jsIndex [("1", [("UUID", "1"), ("T", "x")])] k) c = some va ∧
           rLookup (jsIndex [("1", [("UUID", "1"), ("T", "y")])] k) c = some vb ∧
           normalizeCRLF va ≠ normalizeCRLF vb) :=
  modified_iff_shared_column_differs
    [("1", [("UUID", "1"), ("T", "x")])] [("1", [("UUID", "1"), ("T", "y")])] []

/-! ## Logic-Flag Classifier: the conjunction arm -/

/-- C2: evaluating the classifier on a conjunction whose single operand is
the equality of one and one, which is not a dev check.  The claim says such a
conjunction classifies as None; the code returns dev only, because the
reduce callback tests `status == status`, which holds at every element, in
place of the accumulated status.  The comment above the code states the
intended containment test, so this is a defect of the code. -/
theorem getLogicFlags_and_without_devcheck :
    isDevCheck (Json.jobj [("==", Json.jarr [Json.jnum 1, Json.jnum 1])]) = false ∧
    getLogicFlags [("JsonLogic", "x")]
      (fun _ => JsonParseOutcome.ok
        (Json.jobj [("and",
          Json.jarr [Json.jobj [("==", Json.jarr [Json.jnum 1, Json.jnum 1])]])]))
      = some "dev only" :=
  ⟨rfl, rfl⟩

/-! ## The Table-Diff Engine is not total -/

/-- C4: a common row whose columns are unchanged names a task file through
its Action Link, the media-reference map has no entry for that file, and the
file diff holds an unrelated entry with real paths.  The filter callback then
reads the property has of an undefined map value and throws, so
`getActivityChanges` produces no TableDiff at all: the claimed totality
fails. -/
theorem getActivityChanges_missing_mediaref_crash :
    rLookup ([] : List (String × List String)) "tasks/a.json" = none ∧
    hasModifiedFile "tasks/a.json"
      [{ fromPath := some "other.txt", toPath := some "other.txt" }] = false ∧
    getActivityChanges [("1", c4row)] [("1", c4row)] []
      (some [{ fromPath := some "other.txt", toPath := some "other.txt" }]) = none :=
  ⟨rfl, rfl, rfl⟩

/-! ## Keyed-table construction: empty and duplicate identity keys -/

theorem rLookup_insertOrReplace (t : TaskTable) (k : String) (r : Row) (k₂ : String) :
    rLookup (insertOrReplace t k r) k₂ = if k = k₂ then some r else rLookup t k₂ := by
  induction t with
  | nil => simp [insertOrReplace, rLookup]
  | cons p rest ih =>
    obtain ⟨k₀, r₀⟩ := p
    unfold insertOrReplace
    by_cases h0 : k₀ = k
    · subst h0
      rw [if_pos rfl]
      unfold rLookup
      by_cases h1 : k₀ = k₂
      · subst h1
        simp
      · simp [h1]
    · rw [if_neg h0]
      unfold rLookup
      by_cases h1 : k₀ = k₂
      · subst h1
        have : k ≠ k₀ := fun he => h0 he.symm
        simp [this]
      · simp [h1, ih]

theorem getLast?_cons_eq {α : Type} (a : α) (l : List α) :
    (a :: l).getLast? =
      match l.getLast? with
      | some r => some r
      | none => some a := by
  cases l with
  | nil => simp
  | cons b l₂ =>
    rw [List.getLast?_cons_cons]
    cases h : (b :: l₂).getLast? with
    | none => simp at h
    | some r => rfl

theorem getTaskTable_lookup_aux (t : Table) (acc : TaskTable) (k : String) (hk : k ≠ "") :
    rLookup (t.foldl (fun tt row =>
        match rLookup row "UUID" with
        | some u => if u = "" then tt else insertOrReplace tt u row
        | none => tt) acc) k =
      match lastUUIDRow t k with
      | some r => some r
      | none => rLookup acc k := by
  induction t generalizing acc with
  | nil => simp [lastUUIDRow]
  | cons row rows ih =>
    rw [List.foldl_cons, ih]
    have hlast : lastUUIDRow (row :: rows) k =
        match lastUUIDRow rows k with
        | some r => some r
        | none => if rLookup row "UUID" == some k then some row else none := by
      unfold lastUUIDRow
      rw [List.filter_cons]
      cases hp : (rLookup row "UUID" == some k) with
      | true =>
        rw [if_pos rfl]
        rw [getLast?_cons_eq]
        cases hl : (List.filter (fun row => rLookup row "UUID" == some k) rows).getLast? <;>
          simp [hl]
      | false =>
        simp only [Bool.false_eq_true, if_false]
        cases hl : (List.filter (fun row => rLookup row "UUID" == some k) rows).getLast? <;>
          simp [hl]
    rw [hlast]
    cases hl : lastUUIDRow rows k with
    | some r => rfl
    | none =>
      cases hu : rLookup row "UUID" with
      | none => simp [hu]
      | some u =>
        dsimp only
        by_cases hue : u = ""
        · subst hue
          rw [if_pos rfl]
          have hkk : ¬("" = k) := fun he => hk he.symm
          simp [hkk]
        · rw [if_neg hue, rLookup_insertOrReplace]
          by_cases huk : u = k
          · subst huk
            simp
          · simp [huk]

theorem getTaskTable_lookup_empty_aux (t : Table) (acc : TaskTable)
    (h : rLookup acc "" = none) :
    rLookup (t.foldl (fun tt row =>
        match rLookup row "UUID" with
        | some u => if u = "" then tt else insertOrReplace tt u row
        | none => tt) acc) "" = none := by
  induction t generalizing acc with
  | nil => exact h
  | cons row rows ih =>
    rw [List.foldl_cons]
    apply ih
    cases hu : rLookup row "UUID" with
    | none => exact h
    | some u =>
      dsimp only
      by_cases hue : u = ""
      · subst hue
        rw [if_pos rfl]
        exact h
      · rw [if_neg hue, rLookup_insertOrReplace, if_neg hue]
        exact h

/-- C6 (amended): rows whose identity key is empty or absent are excluded
from the keyed table, but a duplicated key is not excluded: the keyed table
maps it to the LAST row of the snapshot carrying that key, the earlier
occurrences being overwritten. -/
theorem getTaskTable_empty_and_duplicate_keys (t : Table) :
    rLookup (getTaskTable t) "" = none ∧
    ∀ k, k ≠ "" → rLookup (getTaskTable t) k = lastUUIDRow t k := by
  constructor
  · exact getTaskTable_lookup_empty_aux t [] rfl
  · intro k hk
    unfold getTaskTable
    rw [getTaskTable_lookup_aux t [] k hk]
    cases hl : lastUUIDRow t k <;> simp [rLookup]

/-- C6 counterexample: two distinct rows share the identity key "1".  The
claim says both are excluded from keyed comparison, but the keyed table still
holds the key, bound to the second row. -/
theorem getTaskTable_duplicate_key_counterexample :
    getTaskTable [[("UUID", "1"), ("T", "A")], [("UUID", "1"), ("T", "B")]]
      = [("1", [("UUID", "1"), ("T", "B")])] ∧
    ([("UUID", "1"), ("T", "A")] : Row) ≠ [("UUID", "1"), ("T", "B")] :=
  ⟨rfl, by decide⟩

/-- C6 witness: the amended description evaluated on the duplicate-key
snapshot at the empty key and at the duplicated key. -/
theorem getTaskTable_empty_and_duplicate_keys_witness :
    rLookup (getTaskTable [[("UUID", "1"), ("T", "A")], [("UUID", "1"), ("T", "B")]]) ""
      = none ∧
    rLookup (getTaskTable [[("UUID", "1"), ("T", "A")], [("UUID", "1"), ("T", "B")]]) "1"
      = lastUUIDRow [[("UUID", "1"), ("T", "A")], [("UUID", "1"), ("T", "B")]] "1" :=
  ⟨(getTaskTable_empty_and_duplicate_keys
      [[("UUID", "1"), ("T", "A")], [("UUID", "1"), ("T", "B")]]).1,
   (getTaskTable_empty_and_duplicate_keys
      [[("UUID", "1"), ("T", "A")], [("UUID", "1"), ("T", "B")]]).2 "1" (by decide)⟩

/-! ## Run pipeline: failure propagation and the failure condition -/

theorem checkOutcome_failed_iff (env : RunEnv) (head headArticles : Table) :
    (checkOutcome env head headArticles).failed = true ↔
      (checkOutcome env head headArticles).missingTaskFiles ≠ [] ∨
      (checkOutcome env head headArticles).missingMediaFiles ≠ [] := by
  rw [show (checkOutcome env head headArticles).failed =
      (!(checkOutcome env head headArticles).missingTaskFiles.isEmpty ||
       !(checkOutcome env head headArticles).missingMediaFiles.isEmpty) from rfl]
  cases hA : (checkOutcome env head headArticles).missingTaskFiles <;>
    cases hB : (checkOutcome env head headArticles).missingMediaFiles <;>
      simp

theorem runBody_ok {env : RunEnv} {o : RunOutcome} (h : runBody env = Except.ok o) :
    ∃ head headArticles, o = checkOutcome env head headArticles := by
  unfold runBody at h
  repeat' split at h
  all_goals cases h
  all_goals exact ⟨_, _, rfl⟩

/-- C7: once the run reaches the reference check without a fatal error, the
run is marked failed exactly when the missing-task-files set or the
missing-media-files set is non-empty; missing article files and the three
unused sets never make the run fail. -/
theorem run_failure_iff_missing_files (env : RunEnv)
    (h : (runModel env).referenceCheckRan = true) :
    (runModel env).failed = true ↔
      (runModel env).missingTaskFiles ≠ [] ∨ (runModel env).missingMediaFiles ≠ [] := by
  unfold runModel at h ⊢
  cases hb : runBody env with
  | error e =>
    rw [hb] at h
    simp [abortOutcome] at h
  | ok o =>
    obtain ⟨head, headArticles, rfl⟩ := runBody_ok hb
    exact checkOutcome_failed_iff env head headArticles

/-- C7 witness: the failure condition evaluated on a healthy environment that
reaches the reference check. -/
theorem run_failure_iff_missing_files_witness :
    (runModel envOK).referenceCheckRan = true ∧
    ((runModel envOK).failed = true ↔
      (runModel envOK).missingTaskFiles ≠ [] ∨ (runModel envOK).missingMediaFiles ≠ []) :=
  ⟨rfl, run_failure_iff_missing_files envOK rfl⟩

/-- C5 (amended): there is no VcsUnavailableError and no recovery path.  When
both revisions are supplied and the diff invocation fails, the error reaches
the single top-level handler: the whole run is marked failed and the
reference check never runs.  (An unresolvable revision that merely produces
no diff output yields an empty parsed diff instead, and the run proceeds with
change annotations vacuously omitted.) -/
theorem vcs_failure_aborts_run (env : RunEnv) (ws : String) (t : Table) (e : String)
    (hws : env.githubWorkspace = some ws) (hws2 : ws ≠ "")
    (hb : env.gitBaseSha ≠ "") (hh : env.gitHeadSha ≠ "")
    (hload : env.baseActivitiesResult = Except.ok t)
    (hdiff : env.diffResult = Except.error e) :
    (runModel env).failed = true ∧ (runModel env).referenceCheckRan = false := by
  have hrb : runBody env = Except.error e := by
    unfold runBody
    rw [hws]
    dsimp only
    rw [if_neg hws2, if_pos hb, hload]
    simp only [Except.map]
    rw [if_pos ⟨hb, hh⟩, hdiff]
  unfold runModel
  rw [hrb]
  exact ⟨rfl, rfl⟩

/-- C5 counterexample: in the concrete environment whose diff invocation
fails, the claim says the run recovers and proceeds to the reference check;
instead the reference check never runs and the run is marked failed. -/
theorem vcs_failure_aborts_run_counterexample :
    (runModel envC5).referenceCheckRan = false ∧ (runModel envC5).failed = true :=
  ⟨rfl, rfl⟩

/-- C5 witness: the amended statement applied to the concrete failing
environment. -/
theorem vcs_failure_aborts_run_witness :
    (runModel envC5).failed = true ∧ (runModel envC5).referenceCheckRan = false :=
  vcs_failure_aborts_run envC5 "ws" [] "fatal: bad revision" rfl (by decide) (by decide)
    (by decide) rfl rfl

/-! ## Modified-section rendering never needs the null placeholder -/

/-- C10: every column reported by `getModifiedColumns` is present in both
rows, so the per-column values rendered in the Modified section are always
the escaped cell contents and the placeholder for an absent column is never
emitted. -/
theorem getModifiedColumns_present_in_both (a b : Row) (c : String)
    (h : c ∈ getModifiedColumns a b) :
    ∃ va vb, rLookup a c = some va ∧ rLookup b c = some vb ∧
      columnValue a c = markdownEscapeS va ∧ columnValue b c = markdownEscapeS vb := by
  unfold getModifiedColumns at h
  obtain ⟨hmem, hpred⟩ := List.mem_filter.mp h
  cases ha : rLookup a c with
  | none =>
    rw [ha] at hpred
    cases hb : rLookup b c <;> rw [hb] at hpred <;> simp at hpred
  | some va =>
    cases hb : rLookup b c with
    | none =>
      rw [ha, hb] at hpred
      simp at hpred
    | some vb =>
      refine ⟨va, vb, rfl, rfl, ?_, ?_⟩
      · unfold columnValue
        rw [ha]
      · unfold columnValue
        rw [hb]

/-- C10 witness: a one-column pair of rows whose only modified column T is
present on both sides, so both rendered values are escapes of the cells. -/
theorem getModifiedColumns_present_in_both_witness :
    ∃ va vb, rLookup ([("T", "x")] : Row) "T" = some va ∧
      rLookup ([("T", "y")] : Row) "T" = some vb ∧
      columnValue [("T", "x")] "T" = markdownEscapeS va ∧
      columnValue [("T", "y")] "T" = markdownEscapeS vb :=
  getModifiedColumns_present_in_both [("T", "x")] [("T", "y")] "T" (by decide)
